import Mathlib

/-!
Verification of the HxMIDI `ShowMappings.py` data model and layout algorithm:
the bitmask decoder, the display-order resolver, and the two projections
(node-link diagram and adjacency-matrix scatter).  Every definition below is a
shallow embedding of the corresponding Python code; the drawing surface itself
(matplotlib) is modelled only through the data handed to it (points, labels,
edges), as the spec treats it as an external collaborator.
-/

set_option maxHeartbeats 1000000

namespace ShowMappings

/-! ### Python primitives

`int(s, 16)` / `int(s)` string parsing, modelled on CPython's grammar for
integer strings: optional surrounding whitespace, an optional sign, an
optional `0x`/`0X` mark (base 16 only), and digits possibly separated by
single underscores.  `dlookup` models `dict.get`: a Python dict built by
successive insertions is represented by its insertion list, and lookup
returns the value of the *last* binding of a key. -/

def isPySpace (c : Char) : Bool :=
  c == ' ' || c == '\t' || c == '\n' || c == '\r' || c == '\x0b' || c == '\x0c'

def pyStrip (cs : List Char) : List Char :=
  ((cs.dropWhile isPySpace).reverse.dropWhile isPySpace).reverse

def hexDigitVal (c : Char) : Option Nat :=
  if '0' ≤ c ∧ c ≤ '9' then some (c.toNat - '0'.toNat)
  else if 'a' ≤ c ∧ c ≤ 'f' then some (c.toNat - 'a'.toNat + 10)
  else if 'A' ≤ c ∧ c ≤ 'F' then some (c.toNat - 'A'.toNat + 10)
  else none

def decDigitVal (c : Char) : Option Nat :=
  if '0' ≤ c ∧ c ≤ '9' then some (c.toNat - '0'.toNat) else none

/-- Digit run with single underscores allowed between digits; `prevU` records
whether the previous character was an underscore (a trailing or doubled
underscore is an error, as in CPython). -/
def digitsCore (dv : Char → Option Nat) (base : Nat) : List Char → Nat → Bool → Option Nat
  | [], acc, prevU => if prevU then none else some acc
  | c :: rest, acc, prevU =>
    if c == '_' then
      if prevU then none else digitsCore dv base rest acc true
    else
      match dv c with
      | some v => digitsCore dv base rest (acc * base + v) false
      | none => none

/-- Strip a leading `0x`/`0X` mark; the returned flag records whether a mark
was present (after the mark CPython additionally allows one leading
underscore). -/
def dropHexMark (cs : List Char) : List Char × Bool :=
  match cs with
  | '0' :: c :: rest => if c == 'x' || c == 'X' then (rest, true) else (cs, false)
  | _ => (cs, false)

def parseDigits (dv : Char → Option Nat) (base : Nat) (afterMark : Bool)
    (cs : List Char) : Option Nat :=
  match cs with
  | [] => none
  | c :: _ =>
    if c == '_' then
      if afterMark then digitsCore dv base cs 0 false else none
    else
      match dv c with
      | some _ => digitsCore dv base cs 0 false
      | none => none

def parseUnsigned (dv : Char → Option Nat) (base : Nat) (allowMark : Bool)
    (cs : List Char) : Option Nat :=
  let pm := if allowMark then dropHexMark cs else (cs, false)
  parseDigits dv base pm.2 pm.1

/-- CPython `int(s, base)` on a string: strip whitespace, optional sign,
then an unsigned digit string. -/
def parsePyInt (dv : Char → Option Nat) (base : Nat) (allowMark : Bool)
    (s : String) : Option Int :=
  match pyStrip s.toList with
  | '-' :: rest => (parseUnsigned dv base allowMark rest).map (fun n => -(n : Int))
  | '+' :: rest => (parseUnsigned dv base allowMark rest).map (fun n => (n : Int))
  | cs => (parseUnsigned dv base allowMark cs).map (fun n => (n : Int))

/-- Python `int(s, 16)`. -/
def pyIntHex (s : String) : Option Int := parsePyInt hexDigitVal 16 true s

/-- Python `int(s)` (base 10, no `0x` mark). -/
def pyIntDec (s : String) : Option Int := parsePyInt decDigitVal 10 false s

/-- Python `dict.get`: the value of the last binding of `k` in the insertion
list, `none` when the key is absent. -/
def dlookup {α β : Type} [DecidableEq α] : List (α × β) → α → Option β
  | [], _ => none
  | p :: rest, k =>
    match dlookup rest k with
    | some v => some v
    | none => if p.1 = k then some p.2 else none

/-! ### Decoder (`read_and_extract_router_data`, ShowMappings.py lines 44-71)

A raw router entry is either a JSON string or some non-string JSON value;
`int(value, 16)` raises `TypeError` on every non-string, so only strings can
decode. -/

inductive RawEntry
  | str (s : String)
  | nonstr
deriving DecidableEq, Repr

/-- `int_value = int(value, 16)`, `none` when the conversion raises. -/
def int_value? : RawEntry → Option Int
  | .str s => pyIntHex s
  | .nonstr => none

/-- The inner loop `for j in range(15): if (int_value >> j) & 1: ...`.
Python's `>>` is an arithmetic (floor) shift and `& 1` the two's-complement
low bit, i.e. `(v >> j) & 1 = (v.fdiv (2^j)).emod 2`. -/
def connected_outputs (int_value : Int) : List Int :=
  (List.range 15).foldl
    (fun (acc : List Int) (j : Nat) =>
      if (int_value.fdiv ((2 : Int) ^ j)).emod 2 = 1 then acc ++ [(j : Int) + 1] else acc)
    []

/-- The decoding loop: first 15 entries, slot numbers `i+1` by position;
a failed conversion appends a warning `(input_num, value)` and skips the
slot, a successful one stores `connected_outputs`.  Result: `(mappings,
warnings)`. -/
def read_and_extract_router_data (router_data : List RawEntry) :
    List (Int × List Int) × List (Int × RawEntry) :=
  (router_data.take 15).enum.foldl
    (fun st p =>
      match int_value? p.2 with
      | none => (st.1, st.2 ++ [((p.1 : Int) + 1, p.2)])
      | some v => (st.1 ++ [((p.1 : Int) + 1, connected_outputs v)], st.2))
    ([], [])

/-! ### Name table and order spec (`load_midi_names`, lines 73-122)

The names file is modelled by its three relevant fates: `missing`
(`FileNotFoundError`), `unreadable` (any other exception during the load,
e.g. malformed JSON — at that point `names` is still the empty dict), or a
loaded JSON object given as its key/value list (values are strings, per the
NameTable data model; `isinstance(raw["Order"], str)` then always holds).

Note the source's generic `except` branch executes `return names` — a bare
dict, not the `(names, order)` pair the caller unpacks; `LoadNamesResult.bare`
records that shape. -/

/-- Python `s.split(',')`. -/
def splitOnComma : List Char → List (List Char)
  | [] => [[]]
  | c :: rest =>
    if c == ',' then [] :: splitOnComma rest
    else
      match splitOnComma rest with
      | h :: t => (c :: h) :: t
      | [] => [[c]]

/-- Lines 104-110: parse the comma-separated `"Order"` string; pieces that are
blank after stripping are dropped, every remaining piece goes through
`int(...)` (one failure aborts the whole comprehension, caught as `ValueError`
→ `none`), values outside `[1, 15]` are filtered out, and an empty result is
turned into `None`. -/
def parse_order (s : String) : Option (List Int) :=
  match ((splitOnComma s.toList).filter (fun t => !(pyStrip t).isEmpty)).mapM
      (fun t => pyIntDec (String.mk (pyStrip t))) with
  | none => none
  | some nums =>
    if nums.filter (fun n => decide (1 ≤ n ∧ n ≤ 15)) = [] then none
    else some (nums.filter (fun n => decide (1 ≤ n ∧ n ≤ 15)))

inductive NamesFile
  | missing
  | unreadable
  | obj (entries : List (String × String))
deriving DecidableEq, Repr

/-- The two possible shapes of `load_midi_names`'s return value: the normal
`(names, order)` tuple, or — on the generic exception path — the bare `names`
dict alone (`return names`, line 120). -/
inductive LoadNamesResult
  | pair (names : List (Int × String)) (order_list : Option (List Int))
  | bare (names : List (Int × String))
deriving DecidableEq, Repr

def load_midi_names : NamesFile → LoadNamesResult
  | .missing => .pair [] none
  | .unreadable => .bare []
  | .obj raw =>
    let names := raw.foldl
      (fun (acc : List (Int × String)) kv =>
        match pyIntDec kv.1 with
        | some port_num => acc ++ [(port_num, kv.2)]
        | none => acc)
      []
    let order_list :=
      match dlookup raw "Order" with
      | none => none
      | some s => parse_order s
    .pair names order_list

/-! ### Order resolver (`draw_mapping_diagram`, lines 148-167)

`node_to_y_index` is the dict built by the two placement loops: first the
nodes of `order_list` (in-range, not yet placed) in given order, then the
remaining nodes of `1..15` in ascending order; `current_y_index` starts at 0
and is incremented on every insertion (so it always equals the dict's size).
Python's `if order_list:` guard (false for `None` and `[]`) is modelled by the
`match`: folding the empty list leaves the state unchanged, so `some []` and
`none` agree. -/

def num_nodes : Nat := 15

/-- The slot universe `range(1, num_nodes + 1)` in ascending order. -/
def slotUniverse : List Int := (List.range num_nodes).map (fun (i : Nat) => (i : Int) + 1)

def order_pass_step (st : List (Int × Nat) × Nat) (node_num : Int) :
    List (Int × Nat) × Nat :=
  if 1 ≤ node_num ∧ node_num ≤ 15 ∧ dlookup st.1 node_num = none then
    (st.1 ++ [(node_num, st.2)], st.2 + 1)
  else st

def remaining_step (st : List (Int × Nat) × Nat) (node_num : Int) :
    List (Int × Nat) × Nat :=
  if dlookup st.1 node_num = none then (st.1 ++ [(node_num, st.2)], st.2 + 1)
  else st

def node_to_y_index (order_list : Option (List Int)) : List (Int × Nat) :=
  let st1 :=
    match order_list with
    | some l => l.foldl order_pass_step ([], 0)
    | none => ([], 0)
  let remaining_nodes := slotUniverse.filter (fun n => (dlookup st1.1 n).isNone)
  (remaining_nodes.foldl remaining_step st1).1

/-! ### Layout engine: node-link projection (lines 139-204)

The node loop plots, for every node of `1..15` whose rank is found (always,
since `node_to_y_index` is total), an input point at `x = 0` and an output
point at `x = 1` with `y = 1.0 - (y_index + 1) * y_spacing`, draws the text
label only when the name is truthy (present and non-empty), and draws a
connection line exactly when both endpoint names are truthy.  The y
arithmetic uses only dyadic rationals with tiny exponents (multiples of
1/16), on which Python's binary floating point is exact, so `ℚ` is a faithful
carrier. -/

def y_spacing : ℚ := 1 / ((num_nodes : ℚ) + 1)

def y_coord (y_index : Nat) : ℚ := 1 - ((y_index : ℚ) + 1) * y_spacing

def input_x : ℚ := 0

def output_x : ℚ := 1

/-- Python truthiness of `midi_names.get(node_num)`: false for a missing key
(`None`) and for the empty string. -/
def nameOk (midi_names : List (Int × String)) (node_num : Int) : Bool :=
  match dlookup midi_names node_num with
  | some s => !(s == "")
  | none => false

/-- What `draw_mapping_diagram` hands to the drawing surface: the two point
series, the set of nodes whose label text is drawn, and the drawn connection
lines (as slot pairs; their coordinates are the endpoints' points). -/
structure NodeLink where
  inputPoints : List (ℚ × ℚ)
  outputPoints : List (ℚ × ℚ)
  labeledNodes : List Int
  edges : List (Int × Int)
deriving DecidableEq, Repr

/-- The node loop's input-side points (`ax.plot(input_x, y, 'bo')`, one per
node of `1..15` whose rank is found). -/
def nodelink_input_points (n2y : List (Int × Nat)) : List (ℚ × ℚ) :=
  slotUniverse.filterMap (fun node_num =>
    match dlookup n2y node_num with
    | none => none              -- `if y_index == -1: continue` (line 171)
    | some yi => some (input_x, y_coord yi))

/-- The node loop's output-side points (`ax.plot(output_x, y, 'rs')`). -/
def nodelink_output_points (n2y : List (Int × Nat)) : List (ℚ × ℚ) :=
  slotUniverse.filterMap (fun node_num =>
    match dlookup n2y node_num with
    | none => none
    | some yi => some (output_x, y_coord yi))

/-- The nodes whose label text is drawn (`if node_label:`). -/
def nodelink_labeled (midi_names : List (Int × String)) (n2y : List (Int × Nat)) :
    List Int :=
  slotUniverse.filter (fun node_num =>
    (dlookup n2y node_num).isSome && nameOk midi_names node_num)

/-- The connection loop (lines 190-204). -/
def nodelink_edges (mappings : List (Int × List Int))
    (midi_names : List (Int × String)) (n2y : List (Int × Nat)) :
    List (Int × Int) :=
  mappings.foldl
    (fun (acc : List (Int × Int)) p =>
      match dlookup n2y p.1 with
      | none => acc             -- `if input_y_index == -1: continue` (line 193)
      | some _ =>
        p.2.foldl
          (fun (acc2 : List (Int × Int)) output_num =>
            match dlookup n2y output_num with
            | none => acc2      -- `if output_y_index == -1: continue` (line 199)
            | some _ =>
              if nameOk midi_names p.1 && nameOk midi_names output_num then
                acc2 ++ [(p.1, output_num)]
              else acc2)
          acc)
    []

def draw_mapping_diagram (mappings : List (Int × List Int))
    (midi_names : List (Int × String)) (order_list : Option (List Int)) :
    Option NodeLink :=
  if mappings = [] then none   -- `if not mappings: return` (line 135)
  else
    let n2y := node_to_y_index order_list
    some ⟨nodelink_input_points n2y, nodelink_output_points n2y,
          nodelink_labeled midi_names n2y, nodelink_edges mappings midi_names n2y⟩

/-- The connection lines actually drawn (empty when the function returned
early). -/
def renderedEdges (mappings : List (Int × List Int))
    (midi_names : List (Int × String)) (order_list : Option (List Int)) :
    List (Int × Int) :=
  match draw_mapping_diagram mappings midi_names order_list with
  | some nl => nl.edges
  | none => []

/-! ### Layout engine: matrix projection (`draw_mapping_matrix`, lines 224-314)

Displayed nodes are exactly `order_list`; `node_to_display_index` is a dict
comprehension over `enumerate(order_list)` (duplicate nodes keep their last
index); axis labels fall back to `"Node {n}"` only when the key is absent;
a point `(input_index, output_index)` is emitted for every mapping edge whose
two endpoints are in the dict. -/

def matrix_label (midi_names : List (Int × String)) (node_num : Int) : String :=
  match dlookup midi_names node_num with
  | some s => s
  | none => "Node " ++ toString node_num

/-- `ordered_labels` (line 259). -/
def matrix_labels (midi_names : List (Int × String)) (display_nodes : List Int) :
    List String :=
  display_nodes.map (matrix_label midi_names)

/-- What `draw_mapping_matrix` hands to the drawing surface: the axis labels
in display order and the scattered points. -/
structure MatrixRender where
  labels : List String
  points : List (Nat × Nat)
deriving DecidableEq, Repr

/-- The point-collection loop (lines 261-274): one point
`(input_index, output_index)` per mapping edge whose both endpoints are in
`node_to_display_index`. -/
def matrix_points (mappings : List (Int × List Int)) (n2d : List (Int × Nat)) :
    List (Nat × Nat) :=
  mappings.foldl
    (fun (acc : List (Nat × Nat)) p =>
      match dlookup n2d p.1 with
      | none => acc
      | some input_index =>
        p.2.foldl
          (fun (acc2 : List (Nat × Nat)) output_num =>
            match dlookup n2d output_num with
            | none => acc2
            | some output_index => acc2 ++ [(input_index, output_index)])
          acc)
    []

def draw_mapping_matrix (mappings : List (Int × List Int))
    (midi_names : List (Int × String)) (order_list : Option (List Int)) :
    Option MatrixRender :=
  if mappings = [] then none   -- `if not mappings: return` (line 235)
  else
    match order_list with
    | none => none             -- `if not order_list: ... return` (line 240)
    | some ol =>
      if ol = [] then none     -- same guard: `[]` is falsy in Python
      else
        let node_to_display_index := ol.enum.map Prod.swap
        some ⟨matrix_labels midi_names ol,
              matrix_points mappings node_to_display_index⟩

/-! ### The run (`__main__`, lines 316-367)

Fatal router errors and path handling are out of scope; the run is modelled
from the decoded mapping on.  `if mappings:` guards both drawings; unpacking
`load_midi_names`'s result crashes with `ValueError` when the bare dict (its
`names` is always the empty dict on that path) is returned, producing neither
image. -/

def main_run (router_data : List RawEntry) (names_file : NamesFile) :
    Option (Option NodeLink × Option MatrixRender) :=
  let mappings := (read_and_extract_router_data router_data).1
  if mappings = [] then some (none, none)
  else
    match load_midi_names names_file with
    | .bare _ => none   -- `midi_names, order_list = load_midi_names(...)` raises
    | .pair midi_names order_list =>
      some (draw_mapping_diagram mappings midi_names order_list,
            draw_mapping_matrix mappings midi_names order_list)

/-! ### Spec-side vocabulary for the order-resolution claims -/

/-- The slots of an order spec that actually receive a rank, in given order:
in-range (`1 ≤ v ≤ 15`), first occurrence only. -/
def keptSlots (seen : List Int) : List Int → List Int
  | [] => []
  | v :: rest =>
    if 1 ≤ v ∧ v ≤ 15 ∧ v ∉ seen then v :: keptSlots (seen ++ [v]) rest
    else keptSlots seen rest

def orderSpecRanked (l : List Int) : List Int := keptSlots [] l

/-- Python's `(v >> j) & 1 == 1`: bit `j` of `v` in two's complement. -/
def pyBitSet (v : Int) (j : Nat) : Prop := (v.fdiv ((2 : Int) ^ j)).emod 2 = 1

instance (v : Int) (j : Nat) : Decidable (pyBitSet v j) :=
  inferInstanceAs (Decidable ((v.fdiv ((2 : Int) ^ j)).emod 2 = 1))

/-- The slots of `1..15` left over by an order spec, in ascending order. -/
def unrankedSlots (l : List Int) : List Int :=
  slotUniverse.filter (fun n => decide (n ∉ orderSpecRanked l))

/-! ### Proof-side decompositions of the loops

Per-entry (respectively per-row, per-output) contributions of the decoding
and drawing loops, used to characterize the folds. -/

/-- The positional key of index `i`: `input_num = i + 1` as a Python int. -/
def slotKey (i : Nat) : Int := (i : Int) + 1

/-- Per-entry contribution to `mappings`. -/
def decodeEntryM (p : Nat × RawEntry) : List (Int × List Int) :=
  match int_value? p.2 with
  | some v => [((p.1 : Int) + 1, connected_outputs v)]
  | none => []

/-- Per-entry contribution to the warning list. -/
def decodeEntryW (p : Nat × RawEntry) : List (Int × RawEntry) :=
  match int_value? p.2 with
  | some _ => []
  | none => [((p.1 : Int) + 1, p.2)]

/-- One output's contribution to the connection lines of one mapping row. -/
def edgeContrib (midi_names : List (Int × String)) (n2y : List (Int × Nat))
    (input_num output_num : Int) : List (Int × Int) :=
  match dlookup n2y output_num with
  | none => []
  | some _ =>
    if nameOk midi_names input_num && nameOk midi_names output_num then
      [(input_num, output_num)]
    else []

/-- One mapping row's contribution to the connection lines. -/
def rowContrib (midi_names : List (Int × String)) (n2y : List (Int × Nat))
    (p : Int × List Int) : List (Int × Int) :=
  match dlookup n2y p.1 with
  | none => []
  | some _ => p.2.flatMap (edgeContrib midi_names n2y p.1)

/-- One mapping row's contribution to the matrix points. -/
def pointRow (n2d : List (Int × Nat)) (p : Int × List Int) : List (Nat × Nat) :=
  match dlookup n2d p.1 with
  | none => []
  | some input_index =>
    p.2.flatMap (fun output_num =>
      match dlookup n2d output_num with
      | none => []
      | some output_index => [(input_index, output_index)])

/-! ### Concrete sanity checks of the embedding -/

-- sanity checks of the Python semantics
example : pyIntHex "7" = some 7 := by decide
example : pyIntHex "0x1F" = some 31 := by decide
example : pyIntHex "-1" = some (-1) := by decide
example : pyIntHex " 1_0 " = some 16 := by decide
example : pyIntHex "" = none := by decide
example : pyIntHex "zz" = none := by decide
example : pyIntHex "0x" = none := by decide
example : pyIntHex "1__0" = none := by decide
example : pyIntDec "12" = some 12 := by decide
example : pyIntDec "0x1" = none := by decide
example : connected_outputs 7 = [1, 2, 3] := by decide
example : connected_outputs (-1) = [1,2,3,4,5,6,7,8,9,10,11,12,13,14,15] := by decide
example : read_and_extract_router_data [.str "1", .str "0"] = ([(1, [1]), (2, [])], []) := by decide
example : read_and_extract_router_data [.str "zz", .nonstr, .str "3"]
    = ([(3, [1, 2])], [(1, .str "zz"), (2, .nonstr)]) := by decide

example : parse_order "5,2,5" = some [5, 2, 5] := by decide
example : parse_order "1, 20, 3" = some [1, 3] := by decide
example : parse_order "  " = none := by decide
example : parse_order "20" = none := by decide
example : parse_order "5,x" = none := by decide
example : load_midi_names (.obj [("1", "A"), ("Order", "2,1"), ("zz", "B")])
    = .pair [(1, "A")] (some [2, 1]) := by decide

example : node_to_y_index (some [5, 2, 5, 20]) =
    [(5, 0), (2, 1), (1, 2), (3, 3), (4, 4), (6, 5), (7, 6), (8, 7), (9, 8),
     (10, 9), (11, 10), (12, 11), (13, 12), (14, 13), (15, 14)] := by decide
example : dlookup (node_to_y_index none) 1 = some 0 := by decide

example : renderedEdges [(1, [2, 3])] [(1, "A"), (2, "B")] none = [(1, 2)] := by decide
example : (draw_mapping_diagram [(1, [1])] [] none).map (fun nl => nl.inputPoints.length)
    = some 15 := by decide

example : draw_mapping_matrix [(1, [2]), (2, [1])] [] (some [2, 1])
    = some ⟨["Node 2", "Node 1"], [(1, 0), (0, 1)]⟩ := by decide
example : draw_mapping_matrix [(1, [2])] [] none = none := by decide

example : main_run [.str "1"] .unreadable = none := by decide
example : (main_run [.str "1"] .missing).map (fun r => r.1.isSome) = some true := by decide

/-! ### Dict-lookup lemmas -/

theorem dlookup_append {α β : Type} [DecidableEq α] (l₁ l₂ : List (α × β)) (k : α) :
    dlookup (l₁ ++ l₂) k =
      match dlookup l₂ k with
      | some v => some v
      | none => dlookup l₁ k := by
  induction l₁ with
  | nil => cases h : dlookup l₂ k <;> simp [dlookup, h]
  | cons p rest ih =>
    show dlookup (p :: (rest ++ l₂)) k = _
    rw [dlookup, ih]
    cases h : dlookup l₂ k <;> cases h2 : dlookup rest k <;> simp [dlookup, h, h2]

theorem dlookup_mem {α β : Type} [DecidableEq α] {l : List (α × β)} {k : α} {v : β}
    (h : dlookup l k = some v) : (k, v) ∈ l := by
  induction l with
  | nil => cases h
  | cons p rest ih =>
    rw [dlookup] at h
    cases h2 : dlookup rest k with
    | some w =>
      rw [h2] at h
      cases h
      exact List.mem_cons_of_mem _ (ih h2)
    | none =>
      rw [h2] at h
      by_cases hpk : p.1 = k
      · rw [if_pos hpk] at h
        cases h
        have hp : p = (k, p.2) := by rw [← hpk]
        rw [← hp]
        exact List.mem_cons_self p rest
      · rw [if_neg hpk] at h
        cases h

theorem dlookup_eq_none_iff {α β : Type} [DecidableEq α] {l : List (α × β)} {k : α} :
    dlookup l k = none ↔ ∀ p ∈ l, p.1 ≠ k := by
  induction l with
  | nil => simp [dlookup]
  | cons p rest ih =>
    rw [dlookup]
    cases h : dlookup rest k with
    | some v =>
      constructor
      · intro hc; exact Option.noConfusion hc
      · intro hall
        exact absurd (rfl : k = k)
          (hall (k, v) (List.mem_cons_of_mem _ (dlookup_mem h)))
    | none =>
      by_cases hpk : p.1 = k
      · rw [if_pos hpk]
        constructor
        · intro hc; exact Option.noConfusion hc
        · intro hall; exact absurd hpk (hall p (List.mem_cons_self p rest))
      · rw [if_neg hpk]
        constructor
        · intro _ q hq
          rcases List.mem_cons.mp hq with rfl | hq'
          · exact hpk
          · exact (ih.mp h) q hq'
        · intro _; rfl

theorem dlookup_isSome_iff {α β : Type} [DecidableEq α] {l : List (α × β)} {k : α} :
    (dlookup l k).isSome = true ↔ k ∈ l.map Prod.fst := by
  rw [Option.isSome_iff_ne_none, Ne, dlookup_eq_none_iff]
  simp only [List.mem_map]
  constructor
  · intro h
    by_contra hc
    push_neg at hc
    exact h hc
  · rintro ⟨p, hp, rfl⟩ hall
    exact hall p hp rfl

theorem dlookup_of_nodup_mem {α β : Type} [DecidableEq α] {l : List (α × β)}
    (hn : (l.map Prod.fst).Nodup) {k : α} {v : β} (h : (k, v) ∈ l) :
    dlookup l k = some v := by
  induction l with
  | nil => cases h
  | cons p rest ih =>
    rw [List.map_cons, List.nodup_cons] at hn
    rw [dlookup]
    rcases List.mem_cons.mp h with rfl | h'
    · cases h2 : dlookup rest k with
      | some w =>
        exact absurd (List.mem_map.mpr ⟨(k, w), dlookup_mem h2, rfl⟩) hn.1
      | none => simp
    · rw [ih hn.2 h']

/-! ### Fold-to-flatMap lemmas -/

theorem foldl_flatMap {β γ : Type} (step : List β → γ → List β) (J : γ → List β)
    (h : ∀ acc x, step acc x = acc ++ J x) :
    ∀ (l : List γ) (acc : List β), l.foldl step acc = acc ++ l.flatMap J := by
  intro l
  induction l with
  | nil => intro acc; simp
  | cons x rest ih => intro acc; rw [List.foldl_cons, h, ih, List.flatMap_cons, List.append_assoc]

theorem foldl_flatMap_pair {β γ δ : Type} (step : List β × List δ → γ → List β × List δ)
    (J1 : γ → List β) (J2 : γ → List δ)
    (h : ∀ st x, step st x = (st.1 ++ J1 x, st.2 ++ J2 x)) :
    ∀ (l : List γ) (a : List β) (b : List δ),
      l.foldl step (a, b) = (a ++ l.flatMap J1, b ++ l.flatMap J2) := by
  intro l
  induction l with
  | nil => intro a b; simp
  | cons x rest ih =>
    intro a b
    rw [List.foldl_cons, h, ih, List.flatMap_cons, List.flatMap_cons,
      List.append_assoc, List.append_assoc]

theorem flatMap_if_singleton {β γ : Type} (p : γ → Bool) (f : γ → β) :
    ∀ l : List γ, (l.flatMap fun x => if p x then [f x] else []) = (l.filter p).map f := by
  intro l
  induction l with
  | nil => rfl
  | cons x rest ih =>
    rw [List.flatMap_cons, List.filter_cons]
    by_cases hp : p x
    · rw [if_pos hp, if_pos hp, List.map_cons, ih]; rfl
    · rw [if_neg hp, if_neg hp, ih]; rfl

/-! ### Decoder characterization -/

theorem read_router_eq (router_data : List RawEntry) :
    read_and_extract_router_data router_data
      = ((router_data.take 15).enum.flatMap decodeEntryM,
         (router_data.take 15).enum.flatMap decodeEntryW) := by
  rw [read_and_extract_router_data]
  rw [foldl_flatMap_pair _ decodeEntryM decodeEntryW]
  · simp
  · intro st p
    rw [decodeEntryM, decodeEntryW]
    cases h : int_value? p.2 <;> simp [h]

theorem read_router_fst (router_data : List RawEntry) :
    (read_and_extract_router_data router_data).1
      = (router_data.take 15).enum.flatMap decodeEntryM := by
  rw [read_router_eq]

theorem read_router_snd (router_data : List RawEntry) :
    (read_and_extract_router_data router_data).2
      = (router_data.take 15).enum.flatMap decodeEntryW := by
  rw [read_router_eq]

/-- Looking up the key `k + i + 1` in a flatMap over `enumFrom k` reduces to
the contribution of position `i` alone (all contributions carry the key
`position + 1`). -/
theorem dlookup_flatMap_enumFrom {ε γ : Type} (F : Nat × ε → List (Int × γ))
    (hF : ∀ p q, q ∈ F p → q.1 = slotKey p.1) :
    ∀ (l : List ε) (k i : Nat),
      dlookup ((l.enumFrom k).flatMap F) (slotKey (k + i))
        = match l[i]? with
          | some e => dlookup (F (k + i, e)) (slotKey (k + i))
          | none => none := by
  intro l
  induction l with
  | nil => intro k i; simp [dlookup]
  | cons e rest ih =>
    intro k i
    rw [List.enumFrom_cons, List.flatMap_cons, dlookup_append]
    cases i with
    | zero =>
      have htail : dlookup ((rest.enumFrom (k + 1)).flatMap F) (slotKey (k + 0))
          = none := by
        rw [dlookup_eq_none_iff]
        intro q hq
        rcases List.mem_flatMap.mp hq with ⟨p, hp, hqp⟩
        have h1 := hF p q hqp
        have h2 := (List.mem_enumFrom hp).1
        rw [h1]
        simp only [slotKey]
        omega
      rw [htail]
      simp only [List.getElem?_cons_zero]
      rfl
    | succ j =>
      have heq : k + 1 + j = k + (j + 1) := by omega
      have htail := ih (k + 1) j
      rw [heq] at htail
      rw [htail]
      have hhead : dlookup (F (k, e)) (slotKey (k + (j + 1))) = none := by
        rw [dlookup_eq_none_iff]
        intro q hq
        rw [hF (k, e) q hq]
        simp only [slotKey]
        omega
      rw [List.getElem?_cons_succ]
      cases hr : rest[j]? with
      | some e' =>
        cases hd : dlookup (F (k + (j + 1), e')) (slotKey (k + (j + 1))) with
        | some v => simp [hd]
        | none => simp [hd, hhead]
      | none => simp [hhead]

theorem decodeEntryM_key (p : Nat × RawEntry) (q : Int × List Int)
    (hq : q ∈ decodeEntryM p) : q.1 = slotKey p.1 := by
  rw [decodeEntryM] at hq
  cases h : int_value? p.2 with
  | none => rw [h] at hq; simp at hq
  | some v =>
    rw [h] at hq
    simp at hq
    rw [hq]
    rfl

theorem decodeEntryW_key (p : Nat × RawEntry) (q : Int × RawEntry)
    (hq : q ∈ decodeEntryW p) : q.1 = slotKey p.1 := by
  rw [decodeEntryW] at hq
  cases h : int_value? p.2 with
  | some v => rw [h] at hq; simp at hq
  | none =>
    rw [h] at hq
    simp at hq
    rw [hq]
    rfl

/-- Total description of `mappings` lookups at positional keys `i+1`,
`i < 15`. -/
theorem mappings_dlookup (router_data : List RawEntry) (i : Nat) (hi : i < 15) :
    dlookup (read_and_extract_router_data router_data).1 ((i : Int) + 1)
      = (router_data[i]?.bind int_value?).map connected_outputs := by
  have hk : ((i : Int) + 1) = slotKey (0 + i) := by simp [slotKey]
  rw [read_router_fst, List.enum_eq_enumFrom, hk,
    dlookup_flatMap_enumFrom decodeEntryM decodeEntryM_key (router_data.take 15) 0 i,
    List.getElem?_take_of_lt hi]
  cases hg : router_data[i]? with
  | none => simp
  | some e =>
    cases hv : int_value? e with
    | none =>
      have hM : decodeEntryM (0 + i, e) = [] := by
        show (match int_value? e with
          | some v => [(((0 + i : Nat) : Int) + 1, connected_outputs v)]
          | none => []) = []
        rw [hv]
      simp only [Nat.zero_add] at hM
      simp [hM, hv, dlookup]
    | some v =>
      have hM : decodeEntryM (0 + i, e)
          = [(((0 + i : Nat) : Int) + 1, connected_outputs v)] := by
        show (match int_value? e with
          | some v => [(((0 + i : Nat) : Int) + 1, connected_outputs v)]
          | none => []) = _
        rw [hv]
      simp only [Nat.zero_add] at hM
      simp [hM, hv, dlookup, slotKey]

/-- Beyond position 15 no key exists: the decoder consumes at most the first
15 entries. -/
theorem mappings_dlookup_ge (router_data : List RawEntry) (i : Nat) (hi : 15 ≤ i) :
    dlookup (read_and_extract_router_data router_data).1 ((i : Int) + 1) = none := by
  have hk : ((i : Int) + 1) = slotKey (0 + i) := by simp [slotKey]
  rw [read_router_fst, List.enum_eq_enumFrom, hk,
    dlookup_flatMap_enumFrom decodeEntryM decodeEntryM_key (router_data.take 15) 0 i]
  have hnone : (router_data.take 15)[i]? = none := by
    rw [List.getElem?_eq_none_iff]
    have := List.length_take_le 15 router_data
    omega
  rw [hnone]

/-- Total description of the warning list at positional keys `i+1`,
`i < 15`. -/
theorem warnings_dlookup (router_data : List RawEntry) (i : Nat) (hi : i < 15) :
    dlookup (read_and_extract_router_data router_data).2 ((i : Int) + 1)
      = router_data[i]?.bind
          (fun e => match int_value? e with | some _ => none | none => some e) := by
  have hk : ((i : Int) + 1) = slotKey (0 + i) := by simp [slotKey]
  rw [read_router_snd, List.enum_eq_enumFrom, hk,
    dlookup_flatMap_enumFrom decodeEntryW decodeEntryW_key (router_data.take 15) 0 i,
    List.getElem?_take_of_lt hi]
  cases hg : router_data[i]? with
  | none => simp
  | some e =>
    cases hv : int_value? e with
    | some v =>
      have hW : decodeEntryW (0 + i, e) = [] := by
        show (match int_value? e with
          | some _ => []
          | none => [(((0 + i : Nat) : Int) + 1, e)]) = []
        rw [hv]
      simp only [Nat.zero_add] at hW
      simp [hW, hv, dlookup]
    | none =>
      have hW : decodeEntryW (0 + i, e) = [(((0 + i : Nat) : Int) + 1, e)] := by
        show (match int_value? e with
          | some _ => []
          | none => [(((0 + i : Nat) : Int) + 1, e)]) = _
        rw [hv]
      simp only [Nat.zero_add] at hW
      simp [hW, hv, dlookup, slotKey]

/-! ### Structure of `connected_outputs` -/

theorem flatMap_if_singleton_prop {β γ : Type} (P : γ → Prop) [DecidablePred P] (f : γ → β) :
    ∀ l : List γ,
      (l.flatMap fun x => if P x then [f x] else [])
        = (l.filter (fun x => decide (P x))).map f := by
  intro l
  induction l with
  | nil => rfl
  | cons x rest ih =>
    rw [List.flatMap_cons, List.filter_cons]
    by_cases hp : P x
    · rw [if_pos hp, if_pos (by simpa using hp), List.map_cons, ih]; rfl
    · rw [if_neg hp, if_neg (by simpa using hp), ih]; rfl

theorem connected_outputs_eq (v : Int) :
    connected_outputs v
      = ((List.range 15).filter (fun j => decide (pyBitSet v j))).map
          (fun (j : Nat) => (j : Int) + 1) := by
  rw [connected_outputs]
  rw [foldl_flatMap _
    (fun (j : Nat) => if (v.fdiv ((2 : Int) ^ j)).emod 2 = 1 then [(j : Int) + 1] else [])
    (fun acc j => by by_cases h : (v.fdiv ((2 : Int) ^ j)).emod 2 = 1 <;> simp [h])]
  rw [List.nil_append]
  exact flatMap_if_singleton_prop (fun (j : Nat) => (v.fdiv ((2 : Int) ^ j)).emod 2 = 1)
    (fun (j : Nat) => (j : Int) + 1) (List.range 15)

theorem connected_outputs_sorted (v : Int) :
    List.Sorted (· < ·) (connected_outputs v) := by
  rw [connected_outputs_eq]
  refine List.Pairwise.map _ (fun a b (h : a < b) => ?_)
    ((List.pairwise_lt_range 15).filter _)
  omega

theorem connected_outputs_mem_bounds (v : Int) (o : Int)
    (ho : o ∈ connected_outputs v) : 1 ≤ o ∧ o ≤ 15 := by
  rw [connected_outputs_eq] at ho
  rcases List.mem_map.mp ho with ⟨j, hj, rfl⟩
  have hr := List.mem_range.mp (List.mem_filter.mp hj).1
  omega

/-! ### Structure of the order resolver -/

theorem keptSlots_mem : ∀ (l seen : List Int) (v : Int),
    v ∈ keptSlots seen l → 1 ≤ v ∧ v ≤ 15 ∧ v ∉ seen := by
  intro l
  induction l with
  | nil => intro seen v h; simp [keptSlots] at h
  | cons a rest ih =>
    intro seen v h
    simp only [keptSlots] at h
    by_cases hc : 1 ≤ a ∧ a ≤ 15 ∧ a ∉ seen
    · rw [if_pos hc] at h
      rcases List.mem_cons.mp h with rfl | h'
      · exact hc
      · have h2 := ih (seen ++ [a]) v h'
        exact ⟨h2.1, h2.2.1, fun hv => h2.2.2 (List.mem_append_left _ hv)⟩
    · rw [if_neg hc] at h
      exact ih seen v h

theorem keptSlots_nodup : ∀ (l seen : List Int), (keptSlots seen l).Nodup := by
  intro l
  induction l with
  | nil => intro seen; simp [keptSlots]
  | cons a rest ih =>
    intro seen
    simp only [keptSlots]
    by_cases hc : 1 ≤ a ∧ a ≤ 15 ∧ a ∉ seen
    · rw [if_pos hc, List.nodup_cons]
      refine ⟨fun hmem => ?_, ih (seen ++ [a])⟩
      exact (keptSlots_mem rest (seen ++ [a]) a hmem).2.2
        (List.mem_append_right _ (List.mem_singleton.mpr rfl))
    · rw [if_neg hc]
      exact ih seen

theorem dlookup_none_iff_not_mem_fst {β : Type} {acc : List (Int × β)} {v : Int} :
    dlookup acc v = none ↔ v ∉ acc.map Prod.fst := by
  rw [dlookup_eq_none_iff]
  constructor
  · intro h hc
    rcases List.mem_map.mp hc with ⟨p, hp, hpe⟩
    exact h p hp hpe
  · intro h p hp hpe
    exact h (List.mem_map.mpr ⟨p, hp, hpe⟩)

theorem order_pass_spec : ∀ (l : List Int) (acc : List (Int × Nat)),
    l.foldl order_pass_step (acc, acc.length)
      = (acc ++ ((keptSlots (acc.map Prod.fst) l).enumFrom acc.length).map Prod.swap,
         acc.length + (keptSlots (acc.map Prod.fst) l).length) := by
  intro l
  induction l with
  | nil => intro acc; simp [keptSlots]
  | cons v rest ih =>
    intro acc
    rw [List.foldl_cons]
    by_cases hc : 1 ≤ v ∧ v ≤ 15 ∧ v ∉ acc.map Prod.fst
    · have hstep : order_pass_step (acc, acc.length) v
          = (acc ++ [(v, acc.length)], acc.length + 1) := by
        rw [order_pass_step,
          if_pos ⟨hc.1, hc.2.1, dlookup_none_iff_not_mem_fst.mpr hc.2.2⟩]
      rw [hstep]
      have hlen : acc.length + 1 = (acc ++ [(v, acc.length)]).length := by simp
      rw [hlen, ih (acc ++ [(v, acc.length)])]
      have hkept : keptSlots (acc.map Prod.fst) (v :: rest)
          = v :: keptSlots (acc.map Prod.fst ++ [v]) rest := by
        simp only [keptSlots]
        rw [if_pos hc]
      have hmapfst : (acc ++ [(v, acc.length)]).map Prod.fst
          = acc.map Prod.fst ++ [v] := by simp
      rw [hkept, hmapfst]
      rw [List.enumFrom_cons, List.map_cons, Prod.swap_prod_mk]
      simp only [List.length_append, List.length_singleton, List.length_cons,
        List.length_nil, Nat.zero_add, List.append_assoc, List.singleton_append,
        Prod.mk.injEq]
      exact ⟨trivial, by omega⟩
    · have hstep : order_pass_step (acc, acc.length) v = (acc, acc.length) := by
        rw [order_pass_step, if_neg]
        intro hcon
        exact hc ⟨hcon.1, hcon.2.1, dlookup_none_iff_not_mem_fst.mp hcon.2.2⟩
      rw [hstep, ih acc]
      have hkept : keptSlots (acc.map Prod.fst) (v :: rest)
          = keptSlots (acc.map Prod.fst) rest := by
        simp only [keptSlots]
        rw [if_neg hc]
      rw [hkept]

theorem remaining_fold_spec : ∀ (ns : List Int) (acc : List (Int × Nat)),
    ns.Nodup → (∀ n ∈ ns, dlookup acc n = none) →
    ns.foldl remaining_step (acc, acc.length)
      = (acc ++ (ns.enumFrom acc.length).map Prod.swap, acc.length + ns.length) := by
  intro ns
  induction ns with
  | nil => intro acc _ _; simp
  | cons n rest ih =>
    intro acc hnd hnone
    rw [List.foldl_cons]
    have hstep : remaining_step (acc, acc.length) n
        = (acc ++ [(n, acc.length)], acc.length + 1) := by
      rw [remaining_step, if_pos (hnone n (List.mem_cons_self _ _))]
    rw [hstep]
    have hlen : acc.length + 1 = (acc ++ [(n, acc.length)]).length := by simp
    have hnone' : ∀ m ∈ rest, dlookup (acc ++ [(n, acc.length)]) m = none := by
      intro m hm
      have hmn : m ≠ n := by
        intro hmn
        exact (List.nodup_cons.mp hnd).1 (hmn ▸ hm)
      have h1 : dlookup [(n, acc.length)] m = none := by
        rw [dlookup_eq_none_iff]
        intro p hp
        rw [List.mem_singleton.mp hp]
        exact fun he => hmn he.symm
      rw [dlookup_append, h1]
      exact hnone m (List.mem_cons_of_mem _ hm)
    rw [hlen, ih (acc ++ [(n, acc.length)]) (List.nodup_cons.mp hnd).2 hnone']
    rw [List.enumFrom_cons, List.map_cons, Prod.swap_prod_mk]
    simp only [List.length_append, List.length_singleton, List.length_cons,
      List.length_nil, Nat.zero_add, List.append_assoc, List.singleton_append,
      Prod.mk.injEq]
    exact ⟨trivial, by omega⟩

theorem map_fst_swap_enumFrom {α : Type} (l : List α) (n : Nat) :
    ((l.enumFrom n).map Prod.swap).map Prod.fst = l := by
  rw [List.map_map]
  have h : (Prod.fst ∘ Prod.swap : Nat × α → α) = Prod.snd := by
    funext p
    rfl
  rw [h, List.enumFrom_map_snd]

theorem map_snd_swap_enumFrom {α : Type} (l : List α) (n : Nat) :
    ((l.enumFrom n).map Prod.swap).map Prod.snd = List.range' n l.length := by
  rw [List.map_map]
  have h : (Prod.snd ∘ Prod.swap : Nat × α → Nat) = Prod.fst := by
    funext p
    rfl
  rw [h, List.enumFrom_map_fst]

theorem mem_slotUniverse (n : Int) : n ∈ slotUniverse ↔ 1 ≤ n ∧ n ≤ 15 := by
  rw [slotUniverse, num_nodes]
  simp only [List.mem_map, List.mem_range]
  constructor
  · rintro ⟨i, hi, rfl⟩
    omega
  · intro h
    exact ⟨(n - 1).toNat, by omega, by omega⟩

theorem slotUniverse_nodup : slotUniverse.Nodup := by decide

theorem slotUniverse_length : slotUniverse.length = 15 := by decide

/-- The resolved order, explicitly: the kept slots of the order spec first, in
given order, then the remaining slots of `1..15` in ascending order, ranked
`0, 1, 2, …` in that sequence. -/
theorem node_to_y_index_some (l : List Int) :
    node_to_y_index (some l)
      = ((orderSpecRanked l ++ unrankedSlots l).enum).map Prod.swap := by
  rw [node_to_y_index]
  have h0 : (([], 0) : List (Int × Nat) × Nat) = (([] : List (Int × Nat)), ([] : List (Int × Nat)).length) := rfl
  rw [h0, order_pass_spec l []]
  simp only [List.map_nil, List.length_nil, List.nil_append, Nat.zero_add]
  set S := keptSlots [] l with hS
  have hkeys : ((S.enumFrom 0).map Prod.swap).map Prod.fst = S := map_fst_swap_enumFrom S 0
  have hfilter : (slotUniverse.filter
        (fun n => (dlookup ((S.enumFrom 0).map Prod.swap) n).isNone))
      = unrankedSlots l := by
    rw [unrankedSlots, orderSpecRanked, ← hS]
    apply List.filter_congr
    intro n _
    rw [Bool.eq_iff_iff, Option.isNone_iff_eq_none, decide_eq_true_eq,
      dlookup_none_iff_not_mem_fst, hkeys]
  rw [hfilter]
  have hlen : S.length = ((S.enumFrom 0).map Prod.swap).length := by
    rw [List.length_map, List.enumFrom_length]
  rw [hlen, remaining_fold_spec (unrankedSlots l) ((S.enumFrom 0).map Prod.swap)
    (slotUniverse_nodup.filter _)
    (fun n hn => by
      have h2 := (List.mem_filter.mp hn).2
      rw [dlookup_none_iff_not_mem_fst, hkeys]
      rw [orderSpecRanked, ← hS] at h2
      exact of_decide_eq_true h2)]
  rw [List.length_map, List.enumFrom_length]
  rw [List.enum_eq_enumFrom, List.enumFrom_append, List.map_append, Nat.zero_add]
  rfl

theorem node_to_y_index_none_eq :
    node_to_y_index none = slotUniverse.enum.map Prod.swap := by decide

theorem node_to_y_index_keys_perm (order_list : Option (List Int)) :
    ((node_to_y_index order_list).map Prod.fst).Perm slotUniverse := by
  cases order_list with
  | none =>
    rw [node_to_y_index_none_eq, List.enum_eq_enumFrom, map_fst_swap_enumFrom]
  | some l =>
    rw [node_to_y_index_some, List.enum_eq_enumFrom, map_fst_swap_enumFrom]
    have hSper : (orderSpecRanked l).Perm
        (slotUniverse.filter (fun n => decide (n ∈ orderSpecRanked l))) := by
      refine List.Subperm.antisymm ?_ ?_
      · refine List.Nodup.subperm (keptSlots_nodup l []) ?_
        intro v hv
        have hb := keptSlots_mem l [] v hv
        rw [List.mem_filter]
        exact ⟨(mem_slotUniverse v).mpr ⟨hb.1, hb.2.1⟩, by simpa using hv⟩
      · refine List.Nodup.subperm (slotUniverse_nodup.filter _) ?_
        intro v hv
        simpa using (List.mem_filter.mp hv).2
    have hneg : unrankedSlots l
        = slotUniverse.filter (fun n => !(decide (n ∈ orderSpecRanked l))) := by
      rw [unrankedSlots]
      apply List.filter_congr
      intro n _
      rw [decide_not]
    refine ((hSper.append_right (unrankedSlots l)).trans ?_)
    rw [hneg]
    exact List.filter_append_perm _ slotUniverse

theorem node_to_y_index_ranks (order_list : Option (List Int)) :
    (node_to_y_index order_list).map Prod.snd = List.range 15 := by
  cases order_list with
  | none => decide
  | some l =>
    rw [node_to_y_index_some, List.enum_eq_enumFrom, map_snd_swap_enumFrom]
    have hperm := node_to_y_index_keys_perm (some l)
    rw [node_to_y_index_some, List.enum_eq_enumFrom, map_fst_swap_enumFrom] at hperm
    rw [hperm.length_eq, slotUniverse_length, ← List.range_eq_range']

theorem node_to_y_index_isSome (order_list : Option (List Int)) (n : Int)
    (hn : n ∈ slotUniverse) :
    (dlookup (node_to_y_index order_list) n).isSome = true := by
  rw [dlookup_isSome_iff]
  exact ((node_to_y_index_keys_perm order_list).mem_iff).mpr hn

/-! ### Structure of the node-link and matrix renders -/

theorem filterMap_length_of_isSome {α β : Type} (f : α → Option β) :
    ∀ l : List α, (∀ x ∈ l, (f x).isSome = true) → (l.filterMap f).length = l.length := by
  intro l
  induction l with
  | nil => intro _; rfl
  | cons x rest ih =>
    intro h
    rw [List.filterMap_cons]
    cases hf : f x with
    | none =>
      have := h x (List.mem_cons_self _ _)
      rw [hf] at this
      cases this
    | some y =>
      rw [List.length_cons, ih (fun z hz => h z (List.mem_cons_of_mem _ hz))]
      rfl

theorem nodelink_points_length (order_list : Option (List Int)) :
    (nodelink_input_points (node_to_y_index order_list)).length = 15
      ∧ (nodelink_output_points (node_to_y_index order_list)).length = 15 := by
  constructor
  · rw [nodelink_input_points,
      filterMap_length_of_isSome _ slotUniverse (fun n hn => ?_), slotUniverse_length]
    cases hd : dlookup (node_to_y_index order_list) n with
    | none =>
      have := node_to_y_index_isSome order_list n hn
      rw [hd] at this
      cases this
    | some yi => rfl
  · rw [nodelink_output_points,
      filterMap_length_of_isSome _ slotUniverse (fun n hn => ?_), slotUniverse_length]
    cases hd : dlookup (node_to_y_index order_list) n with
    | none =>
      have := node_to_y_index_isSome order_list n hn
      rw [hd] at this
      cases this
    | some yi => rfl

theorem nodelink_edges_eq (mappings : List (Int × List Int))
    (midi_names : List (Int × String)) (n2y : List (Int × Nat)) :
    nodelink_edges mappings midi_names n2y
      = mappings.flatMap (rowContrib midi_names n2y) := by
  rw [nodelink_edges]
  rw [foldl_flatMap _ (rowContrib midi_names n2y) (fun acc p => ?_), List.nil_append]
  rw [rowContrib]
  cases hil : dlookup n2y p.1 with
  | none => simp
  | some yi =>
    dsimp only
    rw [foldl_flatMap _ (edgeContrib midi_names n2y p.1) (fun acc2 o => ?_)]
    rw [edgeContrib]
    cases ho : dlookup n2y o with
    | none => simp
    | some oi =>
      by_cases hn : (nameOk midi_names p.1 && nameOk midi_names o) = true
      · rw [if_pos hn, if_pos hn]
      · rw [if_neg hn, if_neg hn, List.append_nil]

theorem mem_nodelink_edges (mappings : List (Int × List Int))
    (midi_names : List (Int × String)) (n2y : List (Int × Nat)) (i o : Int) :
    (i, o) ∈ nodelink_edges mappings midi_names n2y
      ↔ ∃ p ∈ mappings, p.1 = i ∧ o ∈ p.2
          ∧ (dlookup n2y i).isSome = true ∧ (dlookup n2y o).isSome = true
          ∧ nameOk midi_names i = true ∧ nameOk midi_names o = true := by
  rw [nodelink_edges_eq, List.mem_flatMap]
  constructor
  · rintro ⟨p, hp, hmem⟩
    rw [rowContrib] at hmem
    cases hil : dlookup n2y p.1 with
    | none => rw [hil] at hmem; cases hmem
    | some yi =>
      rw [hil] at hmem
      rcases List.mem_flatMap.mp hmem with ⟨o', ho', hoc⟩
      rw [edgeContrib] at hoc
      cases hol : dlookup n2y o' with
      | none => rw [hol] at hoc; cases hoc
      | some oi =>
        rw [hol] at hoc
        by_cases hn : (nameOk midi_names p.1 && nameOk midi_names o') = true
        · rw [if_pos hn] at hoc
          rcases List.mem_singleton.mp hoc with hpair
          have hi : p.1 = i := (Prod.mk.injEq _ _ _ _).mp hpair.symm |>.1
          have ho2 : o' = o := (Prod.mk.injEq _ _ _ _).mp hpair.symm |>.2
          subst hi
          subst ho2
          rw [Bool.and_eq_true] at hn
          exact ⟨p, hp, rfl, ho', by rw [hil]; rfl, by rw [hol]; rfl, hn.1, hn.2⟩
        · rw [if_neg hn] at hoc
          cases hoc
  · rintro ⟨p, hp, rfl, ho2, hsi, hso, hn1, hn2⟩
    refine ⟨p, hp, ?_⟩
    rw [rowContrib]
    cases hil : dlookup n2y p.1 with
    | none => rw [hil] at hsi; cases hsi
    | some yi =>
      rw [List.mem_flatMap]
      refine ⟨o, ho2, ?_⟩
      rw [edgeContrib]
      cases hol : dlookup n2y o with
      | none => rw [hol] at hso; cases hso
      | some oi =>
        rw [if_pos (by rw [Bool.and_eq_true]; exact ⟨hn1, hn2⟩)]
        exact List.mem_singleton.mpr rfl

theorem matrix_points_eq (mappings : List (Int × List Int)) (n2d : List (Int × Nat)) :
    matrix_points mappings n2d = mappings.flatMap (pointRow n2d) := by
  rw [matrix_points]
  rw [foldl_flatMap _ (pointRow n2d) (fun acc p => ?_), List.nil_append]
  rw [pointRow]
  cases hil : dlookup n2d p.1 with
  | none => simp
  | some ii =>
    dsimp only
    rw [foldl_flatMap _
      (fun output_num =>
        match dlookup n2d output_num with
        | none => []
        | some output_index => [(ii, output_index)])
      (fun acc2 o => ?_)]
    dsimp only
    cases ho : dlookup n2d o with
    | none => simp
    | some oi => rfl

theorem mem_matrix_points (mappings : List (Int × List Int)) (n2d : List (Int × Nat))
    (x y : Nat) :
    (x, y) ∈ matrix_points mappings n2d
      ↔ ∃ p ∈ mappings, ∃ o ∈ p.2,
          dlookup n2d p.1 = some x ∧ dlookup n2d o = some y := by
  rw [matrix_points_eq, List.mem_flatMap]
  constructor
  · rintro ⟨p, hp, hmem⟩
    rw [pointRow] at hmem
    cases hil : dlookup n2d p.1 with
    | none => rw [hil] at hmem; cases hmem
    | some ii =>
      rw [hil] at hmem
      rcases List.mem_flatMap.mp hmem with ⟨o, ho, hoc⟩
      cases hol : dlookup n2d o with
      | none => rw [hol] at hoc; cases hoc
      | some oi =>
        rw [hol] at hoc
        rcases List.mem_singleton.mp hoc with hpair
        have hx : ii = x := (Prod.mk.injEq _ _ _ _).mp hpair.symm |>.1
        have hy : oi = y := (Prod.mk.injEq _ _ _ _).mp hpair.symm |>.2
        subst hx
        subst hy
        exact ⟨p, hp, o, ho, hil, hol⟩
  · rintro ⟨p, hp, o, ho, hx, hy⟩
    refine ⟨p, hp, ?_⟩
    rw [pointRow, hx, List.mem_flatMap]
    exact ⟨o, ho, by rw [hy]; exact List.mem_singleton.mpr rfl⟩

theorem draw_mapping_matrix_some (mappings : List (Int × List Int))
    (midi_names : List (Int × String)) (ol : List Int)
    (hm : mappings ≠ []) (ho : ol ≠ []) :
    draw_mapping_matrix mappings midi_names (some ol)
      = some ⟨matrix_labels midi_names ol,
              matrix_points mappings (ol.enum.map Prod.swap)⟩ := by
  rw [draw_mapping_matrix, if_neg hm]
  dsimp only
  rw [if_neg ho]

theorem draw_mapping_matrix_no_order (mappings : List (Int × List Int))
    (midi_names : List (Int × String)) :
    draw_mapping_matrix mappings midi_names none = none := by
  rw [draw_mapping_matrix]
  by_cases h : mappings = []
  · rw [if_pos h]
  · rw [if_neg h]

/-- `node_to_display_index` lookups: for a duplicate-free order list, the rank
of `n` is its index in the list. -/
theorem dlookup_enumFrom_swap (ol : List Int) :
    ∀ (k : Nat) (n : Int), ol.Nodup →
      dlookup ((ol.enumFrom k).map Prod.swap) n
        = if n ∈ ol then some (k + ol.indexOf n) else none := by
  induction ol with
  | nil => intro k n _; simp [dlookup]
  | cons a rest ih =>
    intro k n hnd
    rw [List.enumFrom_cons, List.map_cons, Prod.swap_prod_mk, dlookup]
    rw [ih (k + 1) n (List.nodup_cons.mp hnd).2]
    by_cases hmem : n ∈ rest
    · have hne : n ≠ a := fun he => (List.nodup_cons.mp hnd).1 (he ▸ hmem)
      rw [if_pos hmem]
      rw [if_pos (List.mem_cons_of_mem _ hmem)]
      dsimp only
      rw [List.indexOf_cons_ne _ (fun he => hne he.symm)]
      exact congrArg some (by omega)
    · rw [if_neg hmem]
      dsimp only
      by_cases hna : a = n
      · subst hna
        rw [if_pos rfl, if_pos (List.mem_cons_self _ _), List.indexOf_cons_self]
        rfl
      · rw [if_neg hna, if_neg (fun hc => ?_)]
        rcases List.mem_cons.mp hc with rfl | h'
        · exact hna rfl
        · exact hmem h'

/-! ## Claim theorems -/

/-- C1: for every order spec (absent, empty, partial or full) the resolved
display order is a total bijection from the 15 slots to the ranks 0..14 with
no gaps — the keys are a permutation of `1..15` and the ranks, in insertion
order, are exactly `0, 1, …, 14`; the spec's kept slots are ranked first in
given order (duplicates and out-of-range values silently skipped), then all
remaining slots get the remaining ranks in ascending numeric order; an absent
or empty spec yields the identity order (slot `i` at rank `i-1`); and
`[5, 2, 5, 20]` puts slot 5 at rank 0, slot 2 at rank 1, and the other 13
slots at ranks 2..14 ascending. -/
theorem C1_order_resolution :
    (∀ order_list : Option (List Int),
        ((node_to_y_index order_list).map Prod.fst).Perm slotUniverse
          ∧ (node_to_y_index order_list).map Prod.snd = List.range 15)
    ∧ (∀ l : List Int,
        node_to_y_index (some l)
          = ((orderSpecRanked l ++ unrankedSlots l).enum).map Prod.swap)
    ∧ node_to_y_index none = slotUniverse.enum.map Prod.swap
    ∧ node_to_y_index (some []) = slotUniverse.enum.map Prod.swap
    ∧ node_to_y_index (some [5, 2, 5, 20])
        = [(5, 0), (2, 1), (1, 2), (3, 3), (4, 4), (6, 5), (7, 6), (8, 7), (9, 8),
           (10, 9), (11, 10), (12, 11), (13, 12), (14, 13), (15, 14)] :=
  ⟨fun ol => ⟨node_to_y_index_keys_perm ol, node_to_y_index_ranks ol⟩,
   node_to_y_index_some,
   node_to_y_index_none_eq,
   by decide,
   by decide⟩

/-- C2: for every successfully parsed entry the decoder produces exactly the
output list of the set bits — `connected_outputs v` is the list of `j+1` for
the set bits `j < 15` of `v` (two's complement), always strictly ascending
with every element in `[1, 15]`; the decoded mapping stores exactly that list
under the positional key; and hex `"7"` yields outputs `[1, 2, 3]`. -/
theorem C2_decoder_bit_exact :
    (∀ v : Int,
        connected_outputs v
          = ((List.range 15).filter (fun j => decide (pyBitSet v j))).map
              (fun (j : Nat) => (j : Int) + 1))
    ∧ (∀ v : Int, List.Sorted (fun a b => a < b) (connected_outputs v))
    ∧ (∀ (v : Int) (k : Fin (connected_outputs v).length),
        1 ≤ (connected_outputs v).get k ∧ (connected_outputs v).get k ≤ 15)
    ∧ (∀ (router_data : List RawEntry) (i : Fin 15),
        dlookup (read_and_extract_router_data router_data).1 ((i.val : Int) + 1)
          = (router_data[i.val]?.bind int_value?).map connected_outputs)
    ∧ pyIntHex "7" = some 7
    ∧ connected_outputs 7 = [1, 2, 3] := by
  refine ⟨connected_outputs_eq, connected_outputs_sorted, ?_, ?_, by decide, by decide⟩
  · intro v k
    exact connected_outputs_mem_bounds v _ (List.get_mem _ k.val k.isLt)
  · intro rd i
    exact mappings_dlookup rd i.val i.isLt

/-- C7 counterexample: the raw entry `"-1"` parses successfully as a base-16
integer but decodes to a *negative* integer, and still contributes a key to
the Mapping (with all 15 outputs, by sign extension) with no warning —
contradicting the claim that every consumed entry either decodes to a
non-negative integer or is invalid and skipped. -/
theorem C7_counterexample :
    pyIntHex "-1" = some (-1)
      ∧ ((-1 : Int) < 0)
      ∧ (read_and_extract_router_data [RawEntry.str "-1"]).1
          = [(1, [1, 2, 3, 4, 5, 6, 7, 8, 9, 10, 11, 12, 13, 14, 15])]
      ∧ (read_and_extract_router_data [RawEntry.str "-1"]).2 = [] :=
  ⟨by decide, by decide, by decide, by decide⟩

/-- C7 (amended): the decoder consumes at most the first 15 entries and
assigns input-slot numbers `1, 2, 3, …` purely by position; each consumed
entry either parses as a base-16 integer (possibly negative), contributing
exactly the key `i+1` with its bit outputs and no warning, or fails to parse
and is skipped entirely — no key `i+1` in the Mapping and a warning naming
slot `i+1` and the offending value — while every other position is handled
independently; positions of at least 15 never produce a key. -/
theorem C7_decoder_per_entry :
    (∀ router_data : List RawEntry,
        read_and_extract_router_data router_data
          = read_and_extract_router_data (router_data.take 15))
    ∧ (∀ (router_data : List RawEntry) (i : Fin 15),
        dlookup (read_and_extract_router_data router_data).1 ((i.val : Int) + 1)
          = (router_data[i.val]?.bind int_value?).map connected_outputs)
    ∧ (∀ (router_data : List RawEntry) (i : Fin 15),
        dlookup (read_and_extract_router_data router_data).2 ((i.val : Int) + 1)
          = router_data[i.val]?.bind
              (fun e => match int_value? e with | some _ => none | none => some e))
    ∧ (∀ (router_data : List RawEntry) (j : Nat),
        dlookup (read_and_extract_router_data router_data).1
            (((15 + j : Nat) : Int) + 1)
          = none) := by
  refine ⟨?_, fun rd i => mappings_dlookup rd i.val i.isLt,
    fun rd i => warnings_dlookup rd i.val i.isLt,
    fun rd j => mappings_dlookup_ge rd (15 + j) (by omega)⟩
  intro rd
  rw [read_router_eq, read_router_eq, List.take_take]
  simp

/-- C3 counterexample: with the empty Mapping and order spec `[2, 1]` the
matrix projection returns early (`if not mappings: return`) and draws nothing
at all, so it does not display the two slots enumerated by the order as the
claim (quantified over *every* Mapping) requires. -/
theorem C3_counterexample :
    (draw_mapping_matrix [] [] (some [2, 1])).map (fun r => r.labels.length)
      ≠ some 2 := by decide

/-- C3 (amended): for every *non-empty* Mapping and every non-empty,
duplicate-free order, the matrix projection displays exactly the slots
enumerated by the order (one axis label per order entry, in order), and its
point set contains `(x, y)` exactly for the mapping edges whose both
endpoints are in the order, at the display ranks of input and output; with
order `[2, 1]` and mapping `{1: [2], 2: [1]}` the result is exactly the two
points `(1, 0)` and `(0, 1)`; with no order spec the projection yields
nothing and reports a skip. -/
theorem C3_matrix_projection :
    (∀ (mappings : List (Int × List Int)) (midi_names : List (Int × String))
        (ol : List Int),
        mappings ≠ [] → ol ≠ [] → ol.Nodup →
        ∃ r, draw_mapping_matrix mappings midi_names (some ol) = some r
          ∧ r.labels = matrix_labels midi_names ol
          ∧ r.labels.length = ol.length
          ∧ (∀ x y : Nat,
              (x, y) ∈ r.points
                ↔ ∃ p ∈ mappings, ∃ o ∈ p.2, p.1 ∈ ol ∧ o ∈ ol
                    ∧ x = ol.indexOf p.1 ∧ y = ol.indexOf o))
    ∧ (∀ (mappings : List (Int × List Int)) (midi_names : List (Int × String)),
        draw_mapping_matrix mappings midi_names none = none)
    ∧ draw_mapping_matrix [(1, [2]), (2, [1])] [] (some [2, 1])
        = some ⟨["Node 2", "Node 1"], [(1, 0), (0, 1)]⟩ := by
  refine ⟨?_, draw_mapping_matrix_no_order, by decide⟩
  intro m names ol hm ho hnd
  refine ⟨_, draw_mapping_matrix_some m names ol hm ho, rfl,
    by rw [matrix_labels, List.length_map], ?_⟩
  intro x y
  have hdl : ∀ n : Int, dlookup (ol.enum.map Prod.swap) n
      = if n ∈ ol then some (ol.indexOf n) else none := by
    intro n
    rw [List.enum_eq_enumFrom, dlookup_enumFrom_swap ol 0 n hnd]
    by_cases hmem : n ∈ ol
    · rw [if_pos hmem, if_pos hmem, Nat.zero_add]
    · rw [if_neg hmem, if_neg hmem]
  dsimp only
  rw [mem_matrix_points]
  constructor
  · rintro ⟨p, hp, o, hod, hx, hy⟩
    rw [hdl] at hx hy
    by_cases hpin : p.1 ∈ ol
    · rw [if_pos hpin] at hx
      by_cases hoin : o ∈ ol
      · rw [if_pos hoin] at hy
        injection hx with hx'
        injection hy with hy'
        exact ⟨p, hp, o, hod, hpin, hoin, hx'.symm, hy'.symm⟩
      · rw [if_neg hoin] at hy
        cases hy
    · rw [if_neg hpin] at hx
      cases hx
  · rintro ⟨p, hp, o, hod, hpin, hoin, rfl, rfl⟩
    exact ⟨p, hp, o, hod, by rw [hdl, if_pos hpin], by rw [hdl, if_pos hoin]⟩

/-- C3 witness: the amended theorem applied at mapping `{1: [2], 2: [1]}`,
empty name table and order `[2, 1]`. -/
theorem C3_matrix_projection_witness :
    ∃ r, draw_mapping_matrix [(1, [2]), (2, [1])] [] (some [2, 1]) = some r
      ∧ r.labels = matrix_labels [] [2, 1]
      ∧ r.labels.length = ([2, 1] : List Int).length
      ∧ (∀ x y : Nat,
          (x, y) ∈ r.points
            ↔ ∃ p ∈ ([(1, [2]), (2, [1])] : List (Int × List Int)), ∃ o ∈ p.2,
                p.1 ∈ ([2, 1] : List Int) ∧ o ∈ ([2, 1] : List Int)
                  ∧ x = ([2, 1] : List Int).indexOf p.1
                  ∧ y = ([2, 1] : List Int).indexOf o) :=
  C3_matrix_projection.1 [(1, [2]), (2, [1])] [] [2, 1]
    (by decide) (by decide) (by decide)

/-- C4: an edge `(i → o)` of the Mapping is rendered in the node-link
projection exactly when both endpoints carry a non-empty name in the name
table (a missing or empty name on either side suppresses the line); with
mapping `{1: [2, 3]}` and names `{1: "A", 2: "B"}` only the edge `(1, 2)` is
drawn. -/
theorem C4_edge_name_filter :
    (∀ (mappings : List (Int × List Int)) (midi_names : List (Int × String))
        (order_list : Option (List Int)) (i o : Int),
        (mappings.map Prod.fst).Nodup →
        (∀ p ∈ mappings, (1 ≤ p.1 ∧ p.1 ≤ 15) ∧ ∀ x ∈ p.2, 1 ≤ x ∧ x ≤ 15) →
        ((i, o) ∈ renderedEdges mappings midi_names order_list
          ↔ (∃ outs, dlookup mappings i = some outs ∧ o ∈ outs)
              ∧ nameOk midi_names i = true ∧ nameOk midi_names o = true))
    ∧ renderedEdges [(1, [2, 3])] [(1, "A"), (2, "B")] none = [(1, 2)] := by
  refine ⟨?_, by decide⟩
  intro m names order i o hnd hrange
  by_cases hm : m = []
  · subst hm
    constructor
    · intro h
      simp [renderedEdges, draw_mapping_diagram] at h
    · rintro ⟨⟨outs, houts, _⟩, _, _⟩
      exact Option.noConfusion houts
  · have hren : renderedEdges m names order
        = nodelink_edges m names (node_to_y_index order) := by
      rw [renderedEdges, draw_mapping_diagram, if_neg hm]
    rw [hren, mem_nodelink_edges]
    constructor
    · rintro ⟨p, hp, rfl, ho2, hsi, hso, hn1, hn2⟩
      refine ⟨⟨p.2, dlookup_of_nodup_mem hnd ?_, ho2⟩, hn1, hn2⟩
      rw [Prod.mk.eta]
      exact hp
    · rintro ⟨⟨outs, houts, ho2⟩, hn1, hn2⟩
      have hpm := dlookup_mem houts
      have hri := hrange (i, outs) hpm
      refine ⟨(i, outs), hpm, rfl, ho2, ?_, ?_, hn1, hn2⟩
      · exact node_to_y_index_isSome order i ((mem_slotUniverse i).mpr hri.1)
      · exact node_to_y_index_isSome order o
          ((mem_slotUniverse o).mpr (hri.2 o ho2))

/-- C4 witness: the edge filter applied at mapping `{1: [2, 3]}`, names
`{1: "A", 2: "B"}`, edge `(1, 2)`. -/
theorem C4_edge_name_filter_witness :
    ((1, 2) ∈ renderedEdges [(1, [2, 3])] [(1, "A"), (2, "B")] none
      ↔ (∃ outs, dlookup [(1, [2, 3])] (1 : Int) = some outs ∧ (2 : Int) ∈ outs)
          ∧ nameOk [(1, "A"), (2, "B")] 1 = true
          ∧ nameOk [(1, "A"), (2, "B")] 2 = true) :=
  C4_edge_name_filter.1 [(1, [2, 3])] [(1, "A"), (2, "B")] none 1 2
    (by decide) (by decide)

/-- C5 counterexample: with the empty Mapping the node-link projection
returns early (`if not mappings: return`) and produces no positions at all,
contradicting the claim that it always succeeds with 15 positions per side,
including for the empty Mapping. -/
theorem C5_counterexample :
    (draw_mapping_diagram [] [] none).map (fun nl => nl.inputPoints.length)
      ≠ some 15 := by decide

/-- C5 (amended): for every *non-empty* Mapping, every name table and every
order spec, the node-link projection succeeds and never drops a slot — it
produces exactly 15 input positions and 15 output positions, every slot of
`1..15` having a rank (hence a plotted point on each side) regardless of
names or mapping membership. -/
theorem C5_nodelink_never_drops :
    (∀ (p : Int × List Int) (mappings : List (Int × List Int))
        (midi_names : List (Int × String)) (order_list : Option (List Int)),
        (draw_mapping_diagram (p :: mappings) midi_names order_list).map
            (fun nl => (nl.inputPoints.length, nl.outputPoints.length))
          = some (15, 15))
    ∧ (∀ (order_list : Option (List Int)) (n : Fin 15),
        (dlookup (node_to_y_index order_list) ((n.val : Int) + 1)).isSome = true) := by
  constructor
  · intro p m names order
    rw [draw_mapping_diagram, if_neg (List.cons_ne_nil p m)]
    simp [(nodelink_points_length order).1, (nodelink_points_length order).2]
  · intro order n
    refine node_to_y_index_isSome order _ ((mem_slotUniverse _).mpr ?_)
    have := n.isLt
    omega

/-- C6: when the names file is missing the loader returns the empty name map
and no order, and the run still produces the node-link image (and skips the
matrix); but when the names file is unreadable (e.g. malformed JSON) the
generic exception branch returns the bare `names` dict instead of the
`(names, order)` tuple — the caller's tuple unpacking then raises and no
image is produced, contradicting the claim (a slip in the code: the
documented `return names, None` on the next line is unreachable). -/
theorem C6_names_failure_modes :
    load_midi_names .missing = .pair [] none
      ∧ load_midi_names .unreadable = .bare []
      ∧ main_run [RawEntry.str "1"] .unreadable = none
      ∧ (main_run [RawEntry.str "1"] .missing).map
          (fun r => (r.1.isSome, r.2.isSome)) = some (true, false) :=
  ⟨rfl, rfl, by decide, by decide⟩

/-- C8 counterexample: the extracted order for the string `"5,2,5"` is
`[5, 2, 5]` — the extraction never removes duplicates, so the extracted
sequence is not always distinct as the claim states. -/
theorem C8_counterexample :
    parse_order "5,2,5" = some [5, 2, 5]
      ∧ ¬ ([5, 2, 5] : List Int).Nodup
      ∧ load_midi_names (.obj [("Order", "5,2,5")]) = .pair [] (some [5, 2, 5]) :=
  ⟨by decide, by decide, by decide⟩

/-- C8 (amended): the OrderSpec extracted from the `"Order"` string is always
a non-empty ordered sequence of slot numbers drawn from `1..15` (values
outside the range are discarded, order and multiplicity of the in-range
values preserved — duplicates are *not* removed); an empty result is treated
as absent. -/
theorem C8_order_extraction (s : String) (l : List Int)
    (h : parse_order s = some l) :
    l ≠ []
      ∧ (∀ v ∈ l, 1 ≤ v ∧ v ≤ 15)
      ∧ ∃ nums : List Int,
          ((splitOnComma s.toList).filter (fun t => !(pyStrip t).isEmpty)).mapM
              (fun t => pyIntDec (String.mk (pyStrip t))) = some nums
            ∧ l = nums.filter (fun n => decide (1 ≤ n ∧ n ≤ 15)) := by
  rw [parse_order] at h
  cases hm : ((splitOnComma s.toList).filter (fun t => !(pyStrip t).isEmpty)).mapM
      (fun t => pyIntDec (String.mk (pyStrip t))) with
  | none => rw [hm] at h; cases h
  | some nums =>
    rw [hm] at h
    dsimp only at h
    by_cases he : nums.filter (fun n => decide (1 ≤ n ∧ n ≤ 15)) = []
    · rw [if_pos he] at h
      cases h
    · rw [if_neg he] at h
      injection h with h'
      subst h'
      refine ⟨he, ?_, nums, rfl, rfl⟩
      intro v hv
      exact of_decide_eq_true (List.mem_filter.mp hv).2

/-- C8 witness: the amended extraction property at the order string
`"5,2,5"`. -/
theorem C8_order_extraction_witness :
    ([5, 2, 5] : List Int) ≠ []
      ∧ (∀ v ∈ ([5, 2, 5] : List Int), 1 ≤ v ∧ v ≤ 15)
      ∧ ∃ nums : List Int,
          ((splitOnComma "5,2,5".toList).filter (fun t => !(pyStrip t).isEmpty)).mapM
              (fun t => pyIntDec (String.mk (pyStrip t))) = some nums
            ∧ ([5, 2, 5] : List Int)
                = nums.filter (fun n => decide (1 ≤ n ∧ n ≤ 15)) :=
  C8_order_extraction "5,2,5" [5, 2, 5] (by decide)

/-- C9: the vertical coordinate of the slot at display rank `r` is exactly
`1 − (r+1)/16` — 15 evenly spaced rows strictly inside `(0, 1)` with
symmetric padding of one `y_spacing` at top and bottom; the node-link input
points are exactly these coordinates per rank; with order spec absent slot 1
has rank 0 and `y = 1 − 1/16 = 15/16 = 0.9375`; end to end, the router table
`["1", "0"]` decodes to `{1: [1], 2: []}` and its first input point sits at
`(0, 15/16)`.  (The Python float arithmetic here is exact: every value is a
dyadic rational with tiny exponent.) -/
theorem C9_vertical_coordinates :
    (∀ r : Nat, y_coord r = 1 - ((r : ℚ) + 1) / 16)
    ∧ (∀ r : Fin 15, 0 < y_coord r.val ∧ y_coord r.val < 1)
    ∧ (∀ r : Nat, y_coord r - y_coord (r + 1) = y_spacing)
    ∧ (1 - y_coord 0 = y_spacing ∧ y_coord 14 = y_spacing)
    ∧ (∀ (p : Int × List Int) (mappings : List (Int × List Int))
        (midi_names : List (Int × String)) (order_list : Option (List Int)),
        (draw_mapping_diagram (p :: mappings) midi_names order_list).map
            NodeLink.inputPoints
          = some (slotUniverse.filterMap (fun node_num =>
              match dlookup (node_to_y_index order_list) node_num with
              | none => none
              | some yi => some (input_x, y_coord yi))))
    ∧ dlookup (node_to_y_index none) 1 = some 0
    ∧ y_coord 0 = 15 / 16
    ∧ (15 / 16 : ℚ) = 0.9375
    ∧ (read_and_extract_router_data [RawEntry.str "1", RawEntry.str "0"]).1
        = [(1, [1]), (2, [])]
    ∧ (draw_mapping_diagram [(1, [1]), (2, [])] [] none).map
        (fun nl => nl.inputPoints[0]?) = some (some (input_x, y_coord 0)) := by
  refine ⟨?_, ?_, ?_, ⟨?_, ?_⟩, ?_, by decide, ?_, by norm_num, by decide, ?_⟩
  · intro r
    rw [y_coord, y_spacing, num_nodes]
    push_cast
    ring
  · intro r
    have h14 : (r.val : ℚ) ≤ 14 := by
      have := r.isLt
      exact_mod_cast (by omega : r.val ≤ 14)
    have h0 : (0 : ℚ) ≤ (r.val : ℚ) := Nat.cast_nonneg _
    rw [y_coord, y_spacing, num_nodes]
    push_cast
    constructor <;> nlinarith
  · intro r
    rw [y_coord, y_coord, y_spacing, num_nodes]
    push_cast
    ring
  · rw [y_coord, y_spacing, num_nodes]
    norm_num
  · rw [y_coord, y_spacing, num_nodes]
    norm_num
  · intro p m names order
    rw [draw_mapping_diagram, if_neg (List.cons_ne_nil p m)]
    rfl
  · rw [y_coord, y_spacing, num_nodes]
    norm_num
  · have hne : ([(1, [1]), (2, [])] : List (Int × List Int)) ≠ [] := by decide
    rw [draw_mapping_diagram, if_neg hne]
    dsimp only
    rw [Option.map_some']
    congr 1

/-- C10 counterexample: a displayed slot whose name-table entry is the empty
string gets the empty string as its axis label (`dict.get` with a default
only falls back when the key is absent), so it is left unlabeled —
contradicting the claim that every displayed slot gets a non-empty label,
including slots whose entry is the empty string. -/
theorem C10_counterexample :
    matrix_labels [(2, "")] [2] = [""]
      ∧ ("" ∈ matrix_labels [(2, "")] [2])
      ∧ (draw_mapping_matrix [(1, [1])] [(2, "")] (some [2])).map
          MatrixRender.labels = some [""] :=
  ⟨by decide, by decide, by decide⟩

theorem node_label_ne_empty (n : Int) : ("Node " ++ toString n) ≠ "" := by
  intro hc
  have hlen := congrArg String.length hc
  have h5 : ("Node " : String).length = 5 := rfl
  have h0 : ("" : String).length = 0 := rfl
  rw [String.length_append, h5, h0] at hlen
  omega

/-- C10 (amended): every displayed slot receives exactly one axis label — the
name-table value when the slot has an entry (which may be the empty string),
and otherwise the synthetic, always non-empty label `"Node {n}"`; a
displayed slot's label is empty exactly when its name-table entry is the
empty string, so only such slots can appear unlabeled. -/
theorem C10_matrix_label_fallback :
    (∀ (midi_names : List (Int × String)) (display_nodes : List Int),
        matrix_labels midi_names display_nodes
          = display_nodes.map (matrix_label midi_names))
    ∧ (∀ (midi_names : List (Int × String)) (display_nodes : List Int),
        (matrix_labels midi_names display_nodes).length = display_nodes.length)
    ∧ (∀ (midi_names : List (Int × String)) (n : Int),
        matrix_label midi_names n
          = (dlookup midi_names n).getD ("Node " ++ toString n))
    ∧ (∀ n : Int, ("Node " ++ toString n) ≠ "")
    ∧ (∀ (midi_names : List (Int × String)) (n : Int),
        (matrix_label midi_names n = "" ↔ dlookup midi_names n = some "")) := by
  refine ⟨fun names dn => rfl,
    fun names dn => by rw [matrix_labels, List.length_map],
    ?_, node_label_ne_empty, ?_⟩
  · intro names n
    rw [matrix_label]
    cases h : dlookup names n <;> rfl
  · intro names n
    rw [matrix_label]
    cases h : dlookup names n with
    | none =>
      dsimp only
      constructor
      · intro hc
        exact absurd hc (node_label_ne_empty n)
      · intro hc
        cases hc
    | some sv =>
      dsimp only
      constructor
      · intro hc
        rw [hc]
      · intro hc
        injection hc

end ShowMappings
